import Mathlib

/- Verification of the earnings/debt-reconciliation engine of the Task-App
repository, as implemented in src/app/(tabs)/earnings.tsx and its earnings
components.  The engine's data is a list of daily earning records; the
operations are addEarning (with automatic surplus distribution over debt
days), getMonthlyStats, getDayStatus, deleteEarning, and the goal-streak
computation.  Dates are normalized to day granularity by normalizeDate in
the source, so a calendar day is modelled as an absolute month index and a
1-based day of month; monetary amounts (JS numbers fed through parseFloat)
are modelled as exact rationals. -/

namespace TaskApp

/-- A normalized calendar day.  normalizeDate in the source zeroes the
time-of-day of every date before comparison or storage, so a date is exactly
a calendar day: `month` is the absolute month index
(getFullYear () * 12 + getMonth ()) and `day` is getDate (), 1-based.
Date.getTime () ordering on normalized dates is the lexicographic order on
(month, day). -/
structure EDate where
  month : Int
  day : Nat
deriving DecidableEq, Repr

/-- Strict date order (earlier than), the order of Date.getTime () on
normalized dates. -/
def EDate.before (a b : EDate) : Prop :=
  a.month < b.month ∨ (a.month = b.month ∧ a.day < b.day)

instance (a b : EDate) : Decidable (a.before b) := by
  unfold EDate.before; exact inferInstance

/-- Non-strict date order. -/
def EDate.onOrBefore (a b : EDate) : Prop :=
  a.before b ∨ a = b

instance (a b : EDate) : Decidable (a.onOrBefore b) := by
  unfold EDate.onOrBefore; exact inferInstance

/-- Length of the Gregorian month with absolute index `m`
(the source computes it as new Date (year, month + 1, 0).getDate ();
JS Date uses the proleptic Gregorian calendar). -/
def isLeapYear (y : Int) : Bool :=
  (y % 4 == 0 && y % 100 != 0) || y % 400 == 0

/-- Number of days of the month with absolute index `m`. -/
def monthLength (m : Int) : Nat :=
  let y := m.fdiv 12
  let mo := (m.emod 12).toNat
  [31, if isLeapYear y then 29 else 28, 31, 30, 31, 30, 31, 31, 30, 31, 30, 31].getD mo 31

/-- A DailyEarning record as stored under the 'taskmaster_earnings' key.
The createdAt/updatedAt audit timestamps are never read by any engine
operation and are omitted; `amount` and `goal` are JS numbers, modelled as
exact rationals. -/
structure Earning where
  id : String
  date : EDate
  amount : ℚ
  goal : ℚ
  notes : String
deriving DecidableEq, Repr

/-- DAILY_GOAL = 28000 (Naira) in the source. -/
def DAILY_GOAL : ℚ := 28000

/-- The three per-day statuses returned by getDayStatus
('met' | 'partial' | 'debt' in the source; 'partial' is `partialDay` here). -/
inductive DayStatus where
  | met
  | partialDay
  | debt
deriving DecidableEq, Repr

/-- getDayStatus: debt when no record exists for the day, met when the
record's amount reaches its goal, partial otherwise. -/
def getDayStatus (earning : Option Earning) : DayStatus :=
  match earning with
  | none => .debt
  | some e => if e.goal ≤ e.amount then .met else .partialDay

/-- The statistics record computed by getMonthlyStats.  daysMissed is a JS
number that the source never clamps, so it is an integer that may be
negative; the expense fields of the wider EarningStatistics type are not
computed by getMonthlyStats in the source and are omitted. -/
structure EarningStatistics where
  totalEarned : ℚ
  totalGoal : ℚ
  totalDebt : ℚ
  daysTracked : Nat
  daysMissed : Int
  averageDaily : ℚ
  bestDay : ℚ
  worstDay : ℚ
deriving Repr

/-- getMonthEarnings: the records whose date falls in the viewed month
(the source compares getMonth () and getFullYear (), i.e. the absolute
month index). -/
def getMonthEarnings (earnings : List Earning) (currentMonth : Int) : List Earning :=
  earnings.filter (fun e => e.date.month == currentMonth)

/-- The daysPassed figure of getMonthlyStats: today's day of month when the
viewed month is the current month, the full month length otherwise. -/
def daysPassedOf (currentMonth : Int) (today : EDate) : Nat :=
  if currentMonth == today.month then today.day else monthLength currentMonth

/-- getMonthlyStats: monthly statistics for the viewed month `currentMonth`
relative to the wall-clock day `today` (the source reads new Date ()). -/
def getMonthlyStats (earnings : List Earning) (currentMonth : Int) (today : EDate) :
    EarningStatistics :=
  let monthEarnings := getMonthEarnings earnings currentMonth
  let daysPassed : Nat := daysPassedOf currentMonth today
  let totalEarned : ℚ := (monthEarnings.map (fun e => e.amount)).sum
  let daysTracked : Nat := monthEarnings.length
  let daysMissed : Int := (daysPassed : Int) - (daysTracked : Int)
  let amounts := monthEarnings.map (fun e => e.amount)
  { totalEarned := totalEarned
    totalGoal := (daysPassed : ℚ) * DAILY_GOAL
    totalDebt := (daysMissed : ℚ) * DAILY_GOAL
    daysTracked := daysTracked
    daysMissed := daysMissed
    averageDaily := if 0 < daysTracked then totalEarned / (daysTracked : ℚ) else 0
    bestDay := match amounts with | [] => 0 | a :: rest => rest.foldl max a
    worstDay := match amounts with | [] => 0 | a :: rest => rest.foldl min a }

/-- The days enumerated by applyDebtPayment: from the 1st of today's month
through today, inclusive (the source steps a Date d from startOfMonth while
d ≤ today, one day at a time; every enumerated day lies in today's month). -/
def monthDaysThrough (today : EDate) : List EDate :=
  (List.range today.day).map (fun i => { month := today.month, day := i + 1 })

/-- Whether some record in the list is dated on day `d` (the source compares
normalized ISO strings, i.e. normalized dates). -/
def hasEntryOn (allEarnings : List Earning) (d : EDate) : Bool :=
  allEarnings.any (fun e => e.date == d)

/-- The debt days found by applyDebtPayment: enumerated days without an
entry, sorted oldest first.  The source sorts with a numeric getTime
comparator via Array.prototype.sort, which is stable; a stable sort for a
total preorder is a unique function of its input, so it is modelled by the
stable insertion sort. -/
def debtDaysOf (allEarnings : List Earning) (today : EDate) : List EDate :=
  ((monthDaysThrough today).filter (fun d => !(hasEntryOn allEarnings d))).insertionSort
    EDate.onOrBefore

/-- The payment loop of applyDebtPayment: walk the debt days oldest first;
while surplus remains, pay min (remaining, goal) to the next debt day by
synthesizing a record for it.  The source's synthetic ids
"debt_payment_<Date.now ()>_<Math.random ()>" are fresh opaque strings never
read by the engine; the Math.random () component is modelled by the position
index `k`. -/
def payLoop (goal : ℚ) (noteText : String) :
    ℚ → Nat → List EDate → List Earning
  | _, _, [] => []
  | remainingSurplus, k, debtDay :: rest =>
    if remainingSurplus ≤ 0 then []
    else
      let paymentAmount := min remainingSurplus goal
      { id := "debt_payment_" ++ toString k
        date := debtDay
        amount := paymentAmount
        goal := goal
        notes := noteText } ::
      payLoop goal noteText (remainingSurplus - paymentAmount) (k + 1) rest

/-- The synthetic debt-payment records created for surplus `surplus` given
the record list `allEarnings` (which already contains the triggering
entry). -/
def syntheticRecords (allEarnings : List Earning) (today : EDate) (surplus : ℚ) :
    List Earning :=
  payLoop DAILY_GOAL "Auto-paid from surplus" surplus 0 (debtDaysOf allEarnings today)

/-- applyDebtPayment: returns the record list (triggering entry included)
with the synthetic debt-payment records appended.  The source's currentId
parameter is unused in its body and dropped here; the source reads the wall
clock for today's date, passed explicitly. -/
def applyDebtPayment (allEarnings : List Earning) (today : EDate) (surplus : ℚ) :
    List Earning :=
  allEarnings ++ syntheticRecords allEarnings today surplus

/-- The relation of addEarning's final sort: comparator
(a, b) => b.date.getTime () - a.date.getTime (), i.e. newest first. -/
def newestFirst (a b : Earning) : Prop :=
  b.date.onOrBefore a.date

instance (a b : Earning) : Decidable (newestFirst a b) := by
  unfold newestFirst; exact inferInstance

/-- addEarning's final sort.  JS Array.prototype.sort is stable and a stable
sort for a total preorder is a unique function of its input, so it is
modelled by the stable insertion sort. -/
def sortByDateDesc (l : List Earning) : List Earning :=
  l.insertionSort newestFirst

/-- The persistent state the engine's operations touch: the earnings list
stored under 'taskmaster_earnings', together with the SavingsBalance that
the data model declares (the scalar displayed by the SavingsJar component).
addEarning and deleteEarning read and write only the earnings list, so every
operation carries the savings scalar through unchanged. -/
structure AppState where
  earnings : List Earning
  savings : ℚ
deriving Repr

/-- The outcome of addEarning: the state after the call and the validation
error surfaced in an alert, if any.  A rejected call returns the state it
was given, mutating nothing. -/
structure AddOutcome where
  state : AppState
  err : Option String
deriving Repr

/-- The organic record that addEarning creates for an accepted entry of
amount `amountNum` dated `today`: the full entered amount with the current
goal and id Date.now ().toString () (modelled by `nowMs`). -/
def organicRecord (today : EDate) (amountNum : ℚ) (notes : String) (nowMs : Nat) : Earning :=
  { id := toString nowMs, date := today, amount := amountNum,
    goal := DAILY_GOAL, notes := notes }

/-- addEarning: validate (parseFloat NaN — modelled as `none` — or a
negative amount is rejected; a day that already has a record is rejected),
then record the organic entry dated `today` with its full amount, run the
surplus distribution when the amount exceeds DAILY_GOAL, and store the list
sorted newest first.  `nowMs` models Date.now (), the fresh organic id. -/
def addEarning (st : AppState) (today : EDate) (amount? : Option ℚ)
    (notes : String) (nowMs : Nat) : AddOutcome :=
  match amount? with
  | none => { state := st, err := some "Invalid Amount" }
  | some amountNum =>
    if amountNum < 0 then { state := st, err := some "Invalid Amount" }
    else if hasEntryOn st.earnings today then { state := st, err := some "Entry Exists" }
    else
      let updatedEarnings := st.earnings ++ [organicRecord today amountNum notes nowMs]
      let updatedEarnings :=
        if DAILY_GOAL < amountNum then
          applyDebtPayment updatedEarnings today (amountNum - DAILY_GOAL)
        else updatedEarnings
      { state := { earnings := sortByDateDesc updatedEarnings, savings := st.savings }
        err := none }

/-- The record list right after the organic entry is appended, before any
surplus distribution (updatedEarnings = [...earnings, newEarning] in the
source). -/
def postEntryList (st : AppState) (today : EDate) (amountNum : ℚ)
    (notes : String) (nowMs : Nat) : List Earning :=
  st.earnings ++ [organicRecord today amountNum notes nowMs]

/-- deleteEarning: remove the record with the given id; no rebalancing. -/
def deleteEarning (st : AppState) (id : String) : AppState :=
  { earnings := st.earnings.filter (fun e => !(e.id == id)), savings := st.savings }

/-- Modelled from the spec: the day preceding `d`.  The goal-streak walk
("walking backward one day at a time", spec §4.3) is implemented by a parent
screen that is not among the provided sources (the SavingsJar component in
the sources only displays the computed streak), so the step is modelled from
the spec's words with JS Date rollover: the day before the 1st of a month is
the last day of the previous month. -/
def prevDay (d : EDate) : EDate :=
  if 1 < d.day then { month := d.month, day := d.day - 1 }
  else { month := d.month - 1, day := monthLength (d.month - 1) }

/-- Modelled from the spec: whether day `d` "has a record with
amount >= goal" (spec §4.3). -/
def isMetOn (earnings : List Earning) (d : EDate) : Bool :=
  earnings.any (fun e => e.date == d && decide (e.goal ≤ e.amount))

/-- Modelled from the spec: the backward walk of the goal-streak
computation, fuelled.  Each counted day is a distinct day carrying a record,
so the true streak never exceeds the record count and the fuel
computeGoalStreak supplies never truncates the walk. -/
def streakAux (earnings : List Earning) : Nat → EDate → Nat
  | 0, _ => 0
  | fuel + 1, d =>
    if isMetOn earnings d then streakAux earnings fuel (prevDay d) + 1 else 0

/-- Modelled from the spec: computeGoalStreak — "starting at today and
walking backward one day at a time, count consecutive days (including
today) that have a record with amount >= goal; stop counting (without
counting that day) at the first day that either has no record or has
amount < goal" (spec §4.3).  The computation itself is not among the
provided sources; only the SavingsJar component that displays its result
is. -/
def computeGoalStreak (earnings : List Earning) (today : EDate) : Nat :=
  streakAux earnings earnings.length today

/-- Concrete record list for examining getMonthlyStats: two records in
month 0 (one dated day 5, beyond today = day 1). -/
def cexListC5 : List Earning :=
  [{ id := "a", date := ⟨0, 1⟩, amount := 28000, goal := 28000, notes := "" },
   { id := "b", date := ⟨0, 5⟩, amount := 28000, goal := 28000, notes := "" }]

/-- Concrete record list for examining the no-debt policy: days 1, 2, 3 of
month 0 plus a future-dated record on day 20, making daysTracked equal to
daysPassed (= 4) although today (day 4) has no record. -/
def cexListC2 : List Earning :=
  [{ id := "a", date := ⟨0, 1⟩, amount := 28000, goal := 28000, notes := "" },
   { id := "b", date := ⟨0, 2⟩, amount := 28000, goal := 28000, notes := "" },
   { id := "c", date := ⟨0, 3⟩, amount := 28000, goal := 28000, notes := "" },
   { id := "d", date := ⟨0, 20⟩, amount := 28000, goal := 28000, notes := "" }]

/-- The state holding cexListC2 with a zero savings balance. -/
def cexStateC2 : AppState := { earnings := cexListC2, savings := 0 }

/-! Helper lemmas on the date order. -/

theorem EDate.before_irrefl (a : EDate) : ¬ a.before a := by
  simp [EDate.before]

theorem EDate.before_trans {a b c : EDate} (h1 : a.before b) (h2 : b.before c) :
    a.before c := by
  rcases h1 with h1 | ⟨h1, h1d⟩ <;> rcases h2 with h2 | ⟨h2, h2d⟩ <;>
    simp only [EDate.before] <;> omega

theorem EDate.before_ne {a b : EDate} (h : a.before b) : a ≠ b := by
  rintro rfl; exact a.before_irrefl h

theorem EDate.eq_of_day_eq {a b : EDate} (hm : a.month = b.month)
    (hd : a.day = b.day) : a = b := by
  cases a; cases b; simp_all

/-! Helper lemmas on hasEntryOn. -/

theorem hasEntryOn_append (l₁ l₂ : List Earning) (d : EDate) :
    hasEntryOn (l₁ ++ l₂) d = (hasEntryOn l₁ d || hasEntryOn l₂ d) := by
  simp [hasEntryOn]

theorem hasEntryOn_eq_false_iff (l : List Earning) (d : EDate) :
    hasEntryOn l d = false ↔ ∀ e ∈ l, e.date ≠ d := by
  simp [hasEntryOn]

theorem hasEntryOn_eq_true_iff (l : List Earning) (d : EDate) :
    hasEntryOn l d = true ↔ ∃ e ∈ l, e.date = d := by
  simp [hasEntryOn]

/-! Helper lemmas on the debt-day enumeration. -/

theorem monthDaysThrough_pairwise (today : EDate) :
    List.Pairwise EDate.before (monthDaysThrough today) := by
  unfold monthDaysThrough
  refine List.pairwise_map.mpr ((List.pairwise_lt_range today.day).imp ?_)
  intro i j hij
  exact Or.inr ⟨rfl, Nat.succ_lt_succ hij⟩

theorem mem_monthDaysThrough {today d : EDate} :
    d ∈ monthDaysThrough today ↔
      d.month = today.month ∧ 1 ≤ d.day ∧ d.day ≤ today.day := by
  unfold monthDaysThrough
  constructor
  · intro h
    rcases List.mem_map.mp h with ⟨i, hi, rfl⟩
    have hr := List.mem_range.mp hi
    refine ⟨rfl, ?_, ?_⟩
    · show 1 ≤ i + 1
      omega
    · show i + 1 ≤ today.day
      omega
  · rintro ⟨hm, h1, h2⟩
    refine List.mem_map.mpr ⟨d.day - 1, List.mem_range.mpr (by omega), ?_⟩
    refine (EDate.eq_of_day_eq ?_ ?_).symm
    · exact hm
    · show d.day = d.day - 1 + 1
      omega

theorem debtDaysOf_eq_filter (es : List Earning) (today : EDate) :
    debtDaysOf es today =
      (monthDaysThrough today).filter (fun d => !(hasEntryOn es d)) := by
  unfold debtDaysOf
  refine List.Sorted.insertionSort_eq ?_
  refine List.Pairwise.imp (fun h => Or.inl h) ?_
  exact List.Pairwise.sublist (List.filter_sublist _) (monthDaysThrough_pairwise today)

theorem debtDaysOf_pairwise (es : List Earning) (today : EDate) :
    List.Pairwise EDate.before (debtDaysOf es today) := by
  rw [debtDaysOf_eq_filter]
  exact List.Pairwise.sublist (List.filter_sublist _) (monthDaysThrough_pairwise today)

theorem mem_debtDaysOf {es : List Earning} {today d : EDate} :
    d ∈ debtDaysOf es today ↔
      (d.month = today.month ∧ 1 ≤ d.day ∧ d.day ≤ today.day) ∧
        hasEntryOn es d = false := by
  rw [debtDaysOf_eq_filter, List.mem_filter, mem_monthDaysThrough]
  simp

theorem debtDaysOf_eq_nil (es : List Earning) (today : EDate)
    (h : ∀ d, d.month = today.month → 1 ≤ d.day → d.day ≤ today.day →
      hasEntryOn es d = true) :
    debtDaysOf es today = [] := by
  rw [List.eq_nil_iff_forall_not_mem]
  intro d hd
  rcases mem_debtDaysOf.mp hd with ⟨⟨hm, h1, h2⟩, hfalse⟩
  rw [h d hm h1 h2] at hfalse
  cases hfalse

/-! Helper lemmas on the payment loop. -/

theorem payLoop_nil (goal : ℚ) (note : String) (r : ℚ) (k : Nat) :
    payLoop goal note r k [] = [] := by
  rw [payLoop]

theorem payLoop_cons (goal : ℚ) (note : String) (r : ℚ) (k : Nat)
    (d : EDate) (ds : List EDate) :
    payLoop goal note r k (d :: ds) =
      if r ≤ 0 then []
      else
        { id := "debt_payment_" ++ toString k, date := d, amount := min r goal,
          goal := goal, notes := note } ::
        payLoop goal note (r - min r goal) (k + 1) ds := by
  rw [payLoop]

theorem payLoop_map_date (goal : ℚ) (note : String) :
    ∀ (ds : List EDate) (r : ℚ) (k : Nat),
      (payLoop goal note r k ds).map (fun e => e.date) =
        ds.take (payLoop goal note r k ds).length
  | [], r, k => by simp [payLoop_nil]
  | d :: ds, r, k => by
    rw [payLoop_cons]
    by_cases hr : r ≤ 0
    · simp [hr]
    · simp only [if_neg hr, List.map_cons, List.length_cons, List.take_succ_cons]
      rw [payLoop_map_date goal note ds (r - min r goal) (k + 1)]

theorem payLoop_mem_date {goal : ℚ} {note : String} {ds : List EDate}
    {r : ℚ} {k : Nat} {e : Earning} (h : e ∈ payLoop goal note r k ds) :
    e.date ∈ ds := by
  have hmem : e.date ∈ (payLoop goal note r k ds).map (fun e => e.date) :=
    List.mem_map.mpr ⟨e, h, rfl⟩
  rw [payLoop_map_date] at hmem
  exact List.mem_of_mem_take hmem

theorem payLoop_eq_nil_of_nonpos (goal : ℚ) (note : String) {r : ℚ}
    (hr : r ≤ 0) (k : Nat) (ds : List EDate) :
    payLoop goal note r k ds = [] := by
  cases ds with
  | nil => exact payLoop_nil goal note r k
  | cons d ds => rw [payLoop_cons, if_pos hr]

theorem payLoop_sum {goal : ℚ} (hG : 0 < goal) (note : String) :
    ∀ (ds : List EDate) (r : ℚ) (_ : 0 < r) (_ : r ≤ ds.length * goal) (k : Nat),
      ((payLoop goal note r k ds).map (fun e => e.amount)).sum = r
  | [], r, hr, hcap, k => by
    exfalso
    simp only [List.length_nil, Nat.cast_zero, zero_mul] at hcap
    exact absurd (lt_of_lt_of_le hr hcap) (lt_irrefl 0)
  | d :: ds, r, hr, hcap, k => by
    rw [payLoop_cons, if_neg (not_le.mpr hr)]
    simp only [List.map_cons, List.sum_cons]
    by_cases hle : r ≤ goal
    · have hmin : min r goal = r := min_eq_left hle
      rw [hmin, sub_self]
      rw [payLoop_eq_nil_of_nonpos goal note (le_refl 0) (k + 1) ds]
      simp
    · have hmin : min r goal = goal := min_eq_right (le_of_not_le hle)
      rw [hmin]
      have hr' : 0 < r - goal := by linarith [lt_of_not_le hle]
      have hcap' : r - goal ≤ ds.length * goal := by
        simp only [List.length_cons, Nat.cast_succ] at hcap
        linarith
      rw [payLoop_sum hG note ds (r - goal) hr' hcap' (k + 1)]
      ring


theorem payLoop_length {goal : ℚ} (hG : 0 < goal) (note : String) :
    ∀ (ds : List EDate) (r : ℚ) (_ : 0 < r) (_ : r ≤ (ds.length : ℚ) * goal) (k : Nat),
      (payLoop goal note r k ds).length = (⌈r / goal⌉).toNat
  | [], r, hr, hcap, k => by
    exfalso
    simp only [List.length_nil, Nat.cast_zero, zero_mul] at hcap
    exact absurd (lt_of_lt_of_le hr hcap) (lt_irrefl 0)
  | d :: ds, r, hr, hcap, k => by
    rw [payLoop_cons, if_neg (not_le.mpr hr)]
    simp only [List.length_cons]
    by_cases hle : r ≤ goal
    · rw [min_eq_left hle, sub_self,
        payLoop_eq_nil_of_nonpos goal note (le_refl 0) (k + 1) ds]
      have h1 : ⌈r / goal⌉ = 1 := by
        rw [Int.ceil_eq_iff]
        constructor
        · push_cast
          simpa using div_pos hr hG
        · push_cast
          exact (div_le_one hG).mpr hle
      simp [h1]
    · rw [min_eq_right (le_of_not_le hle)]
      have hr' : 0 < r - goal := by
        have := lt_of_not_le hle
        linarith
      have hcap' : r - goal ≤ (ds.length : ℚ) * goal := by
        simp only [List.length_cons] at hcap
        push_cast at hcap
        linarith
      rw [payLoop_length hG note ds (r - goal) hr' hcap' (k + 1)]
      have hdiv : (r - goal) / goal = r / goal - 1 := by
        rw [sub_div, div_self (ne_of_gt hG)]
      have hpos : 0 < ⌈r / goal⌉ := Int.ceil_pos.mpr (div_pos hr hG)
      rw [hdiv, Int.ceil_sub_one]
      omega

theorem payLoop_amount {goal : ℚ} (hG : 0 < goal) (note : String) :
    ∀ (ds : List EDate) (r : ℚ) (k : Nat) (i : Nat)
      (h : i < (payLoop goal note r k ds).length),
      ((payLoop goal note r k ds)[i]).amount = min (r - i * goal) goal
  | [], r, k, i, h => by
    rw [payLoop_nil] at h
    exact absurd h (by simp)
  | d :: ds, r, k, i, h => by
    by_cases hr : r ≤ 0
    · exfalso
      rw [payLoop_cons, if_pos hr] at h
      exact absurd h (by simp)
    · have hrw : payLoop goal note r k (d :: ds) =
          { id := "debt_payment_" ++ toString k, date := d, amount := min r goal,
            goal := goal, notes := note } ::
            payLoop goal note (r - min r goal) (k + 1) ds := by
        rw [payLoop_cons, if_neg hr]
      cases i with
      | zero =>
        simp only [hrw, List.getElem_cons_zero, Nat.cast_zero, zero_mul, sub_zero]
      | succ i =>
        by_cases hle : r ≤ goal
        · exfalso
          rw [hrw, min_eq_left hle, sub_self,
            payLoop_eq_nil_of_nonpos goal note (le_refl 0) (k + 1) ds] at h
          simp at h
        · have hmin : min r goal = goal := min_eq_right (le_of_not_le hle)
          have h2 : i < (payLoop goal note (r - goal) (k + 1) ds).length := by
            rw [hrw, hmin] at h
            simpa using h
          have hstep : ((payLoop goal note r k (d :: ds))[i + 1]).amount
              = ((payLoop goal note (r - goal) (k + 1) ds)[i]).amount := by
            simp only [hrw, hmin, List.getElem_cons_succ]
          rw [hstep, payLoop_amount hG note ds (r - goal) (k + 1) i h2]
          congr 1
          push_cast
          ring

theorem payLoop_overflow {goal : ℚ} (hG : 0 < goal) (note : String) :
    ∀ (ds : List EDate) (r : ℚ) (_ : (ds.length : ℚ) * goal < r) (k : Nat),
      (payLoop goal note r k ds).length = ds.length ∧
      ((payLoop goal note r k ds).map (fun e => e.amount)).sum = (ds.length : ℚ) * goal
  | [], r, hover, k => by simp [payLoop_nil]
  | d :: ds, r, hover, k => by
    have hdsg : (0 : ℚ) ≤ (ds.length : ℚ) * goal :=
      mul_nonneg (Nat.cast_nonneg _) hG.le
    have hgr : goal < r := by
      simp only [List.length_cons] at hover
      push_cast at hover
      linarith
    rw [payLoop_cons, if_neg (not_le.mpr (lt_trans hG hgr))]
    rw [min_eq_right hgr.le]
    have hover2 : (ds.length : ℚ) * goal < r - goal := by
      simp only [List.length_cons] at hover
      push_cast at hover
      linarith
    obtain ⟨ih1, ih2⟩ := payLoop_overflow hG note ds (r - goal) hover2 (k + 1)
    constructor
    · simp [ih1]
    · simp only [List.map_cons, List.sum_cons, ih2, List.length_cons]
      push_cast
      ring

theorem DAILY_GOAL_pos : (0 : ℚ) < DAILY_GOAL := by norm_num [DAILY_GOAL]

theorem addEarning_accepted_surplus (st : AppState) (today : EDate) (a : ℚ)
    (notes : String) (nowMs : Nat)
    (hdup : hasEntryOn st.earnings today = false) (hsur : DAILY_GOAL < a) :
    addEarning st today (some a) notes nowMs =
      { state :=
          { earnings := sortByDateDesc
              (postEntryList st today a notes nowMs ++
                syntheticRecords (postEntryList st today a notes nowMs) today
                  (a - DAILY_GOAL)),
            savings := st.savings },
        err := none } := by
  have ha : ¬ a < 0 := not_lt.mpr (le_of_lt (lt_trans DAILY_GOAL_pos hsur))
  simp only [addEarning]
  rw [if_neg ha, hdup]
  simp only [Bool.false_eq_true, if_false, if_pos hsur, applyDebtPayment, postEntryList]

theorem addEarning_accepted_nosurplus (st : AppState) (today : EDate) (a : ℚ)
    (notes : String) (nowMs : Nat)
    (hdup : hasEntryOn st.earnings today = false) (ha : ¬ a < 0)
    (hsur : ¬ DAILY_GOAL < a) :
    addEarning st today (some a) notes nowMs =
      { state :=
          { earnings := sortByDateDesc (postEntryList st today a notes nowMs),
            savings := st.savings },
        err := none } := by
  simp only [addEarning]
  rw [if_neg ha, hdup]
  simp only [Bool.false_eq_true, if_false, if_neg hsur, postEntryList]


/-! The claims. -/

/-- C4: classifier totality and definition.  For every day, getDayStatus
returns exactly one of met, partial, debt; debt iff no record exists for the
day; met iff a record exists with amount ≥ goal (the threshold is
inclusive); partial iff a record exists with amount < goal. -/
theorem C4_classifier_totality (o : Option Earning) :
    (getDayStatus o = DayStatus.met ∨ getDayStatus o = DayStatus.partialDay ∨
        getDayStatus o = DayStatus.debt) ∧
    (getDayStatus o = DayStatus.debt ↔ o = none) ∧
    (getDayStatus o = DayStatus.met ↔ ∃ e, o = some e ∧ e.goal ≤ e.amount) ∧
    (getDayStatus o = DayStatus.partialDay ↔ ∃ e, o = some e ∧ e.amount < e.goal) := by
  cases o with
  | none => simp [getDayStatus]
  | some e =>
    by_cases h : e.goal ≤ e.amount
    · simp [getDayStatus, h, not_lt.mpr h]
    · simp [getDayStatus, h, lt_of_not_le h]

/-- C5 counterexample: a record dated day 5 of the current month while today
is day 1 makes daysTracked (= 2) exceed daysPassed (= 1), so getMonthlyStats
returns daysMissed = -1 < 0: with records outside the expected range
present, daysMissed is negative, refuting the claim's guard. -/
theorem C5_counterexample :
    (getMonthlyStats cexListC5 0 ⟨0, 1⟩).daysMissed < 0 := by decide

/-- C5 (amended): for every earnings list and target month,
totalDebt = daysMissed * dailyGoal and daysMissed = daysPassed - daysTracked
hold unconditionally; daysMissed ≥ 0 holds provided the month's records have
pairwise-distinct dates and lie within days 1..daysPassed (the source does
not guard against records outside that range, under which daysMissed can be
negative — see the counterexample). -/
theorem C5_debt_monotonicity_amended (es : List Earning) (m : Int) (today : EDate) :
    (getMonthlyStats es m today).totalDebt
        = ((getMonthlyStats es m today).daysMissed : ℚ) * DAILY_GOAL ∧
    (getMonthlyStats es m today).daysMissed
        = (daysPassedOf m today : Int) - ((getMonthlyStats es m today).daysTracked : Int) ∧
    (List.Pairwise (fun a b => a.date ≠ b.date) (getMonthEarnings es m) →
      (∀ e ∈ getMonthEarnings es m,
        1 ≤ e.date.day ∧ e.date.day ≤ daysPassedOf m today) →
      0 ≤ (getMonthlyStats es m today).daysMissed) := by
  refine ⟨rfl, rfl, ?_⟩
  intro hnd hin
  have hlen : (getMonthEarnings es m).length ≤ daysPassedOf m today := by
    have hdates : ((getMonthEarnings es m).map (fun e => e.date)).Nodup :=
      List.pairwise_map.mpr hnd
    have hmonth : ∀ e ∈ getMonthEarnings es m, e.date.month = m := by
      intro e he
      have h2 := (List.mem_filter.mp he).2
      simpa using h2
    have hdays : ((getMonthEarnings es m).map (fun e => e.date.day)).Nodup := by
      have hcomp : ((getMonthEarnings es m).map (fun e => e.date.day))
          = ((getMonthEarnings es m).map (fun e => e.date)).map (fun d => d.day) := by
        rw [List.map_map]
        rfl
      rw [hcomp]
      refine List.Nodup.map_on ?_ hdates
      intro d1 hd1 d2 hd2 hday
      rcases List.mem_map.mp hd1 with ⟨e1, he1, rfl⟩
      rcases List.mem_map.mp hd2 with ⟨e2, he2, rfl⟩
      exact EDate.eq_of_day_eq ((hmonth e1 he1).trans (hmonth e2 he2).symm) hday
    calc (getMonthEarnings es m).length
        = ((getMonthEarnings es m).map (fun e => e.date.day)).length := by simp
      _ = ((getMonthEarnings es m).map (fun e => e.date.day)).toFinset.card :=
          (List.toFinset_card_of_nodup hdays).symm
      _ ≤ (Finset.Icc 1 (daysPassedOf m today)).card := by
          refine Finset.card_le_card ?_
          intro x hx
          rcases List.mem_map.mp (List.mem_toFinset.mp hx) with ⟨e, he, rfl⟩
          rcases hin e he with ⟨h1, h2⟩
          exact Finset.mem_Icc.mpr ⟨h1, h2⟩
      _ = daysPassedOf m today := by rw [Nat.card_Icc]; omega
  show 0 ≤ (daysPassedOf m today : Int) - ((getMonthEarnings es m).length : Int)
  omega

/-- Witness for C5 (amended): a month whose single record (day 1, today day
2) is in range and duplicate-free indeed has daysMissed ≥ 0. -/
theorem C5_debt_monotonicity_witness :
    0 ≤ (getMonthlyStats
      [{ id := "a", date := ⟨0, 1⟩, amount := 28000, goal := 28000, notes := "" }]
      0 ⟨0, 2⟩).daysMissed :=
  (C5_debt_monotonicity_amended
    [{ id := "a", date := ⟨0, 1⟩, amount := 28000, goal := 28000, notes := "" }]
    0 ⟨0, 2⟩).2.2 (by decide) (by decide)

/-- C7 counterexample: an entry of amount 0 is accepted, not rejected: the
source's guard is amountNum < 0, so the zero entry is stored as a record,
refuting the claim that every amount ≤ 0 is rejected with no record added. -/
theorem C7_counterexample :
    addEarning { earnings := [], savings := 0 } ⟨0, 1⟩ (some 0) "" 5
      = { state := { earnings := [organicRecord ⟨0, 1⟩ 0 "" 5], savings := 0 },
          err := none } := by
  norm_num [addEarning, hasEntryOn, sortByDateDesc, DAILY_GOAL,
    List.insertionSort]

/-- C7 (amended): a non-numeric (NaN) or strictly negative amount is
rejected with no state change, and never reaches the surplus distributor;
an entry of exactly 0, however, is accepted and stored as an ordinary
record — it still never reaches the distributor, because distribution
requires amount > DAILY_GOAL. -/
theorem C7_nonpositive_rejection_amended (st : AppState) (today : EDate)
    (notes : String) (nowMs : Nat) :
    (addEarning st today none notes nowMs
        = { state := st, err := some "Invalid Amount" }) ∧
    (∀ a : ℚ, a < 0 →
      addEarning st today (some a) notes nowMs
        = { state := st, err := some "Invalid Amount" }) ∧
    (hasEntryOn st.earnings today = false →
      addEarning st today (some 0) notes nowMs =
        { state :=
            { earnings := sortByDateDesc (postEntryList st today 0 notes nowMs),
              savings := st.savings },
          err := none }) := by
  refine ⟨rfl, ?_, ?_⟩
  · intro a ha
    simp only [addEarning, if_pos ha]
  · intro hdup
    exact addEarning_accepted_nosurplus st today 0 notes nowMs hdup
      (by norm_num) (by norm_num [DAILY_GOAL])

/-- Witness for C7 (amended): at the empty state, a negative entry is
rejected unchanged and a zero entry is stored. -/
theorem C7_nonpositive_rejection_witness :
    (addEarning { earnings := [], savings := 0 } ⟨0, 1⟩ (some (-3)) "w" 3
        = { state := { earnings := [], savings := 0 }, err := some "Invalid Amount" }) ∧
    (addEarning { earnings := [], savings := 0 } ⟨0, 1⟩ (some 0) "w" 3 =
      { state :=
          { earnings := sortByDateDesc
              (postEntryList { earnings := [], savings := 0 } ⟨0, 1⟩ 0 "w" 3),
            savings := 0 },
        err := none }) :=
  ⟨(C7_nonpositive_rejection_amended { earnings := [], savings := 0 } ⟨0, 1⟩ "w" 3).2.1
      (-3) (by norm_num),
    (C7_nonpositive_rejection_amended { earnings := [], savings := 0 } ⟨0, 1⟩ "w" 3).2.2
      (by decide)⟩

/-- C8: validation atomicity.  A submission whose amount is non-numeric
(NaN) or negative, or whose day already has a record, is rejected with an
error before any state mutation: the resulting state (earnings list and
savings) is exactly the state before the call. -/
theorem C8_validation_atomicity (st : AppState) (today : EDate)
    (amount? : Option ℚ) (notes : String) (nowMs : Nat)
    (h : amount? = none ∨ (∃ a, amount? = some a ∧ a < 0) ∨
      hasEntryOn st.earnings today = true) :
    (addEarning st today amount? notes nowMs).state = st ∧
    (addEarning st today amount? notes nowMs).err ≠ none := by
  rcases h with rfl | ⟨a, rfl, ha⟩ | hdup
  · exact ⟨rfl, by simp [addEarning]⟩
  · constructor
    · simp only [addEarning, if_pos ha]
    · simp only [addEarning, if_pos ha]
      simp
  · cases amount? with
    | none => exact ⟨rfl, by simp [addEarning]⟩
    | some a =>
      by_cases ha : a < 0
      · constructor
        · simp only [addEarning, if_pos ha]
        · simp only [addEarning, if_pos ha]
          simp
      · constructor
        · simp only [addEarning, if_neg ha, hdup, if_true]
        · simp only [addEarning, if_neg ha, hdup, if_true]
          simp

/-- Witness for C8: a duplicate-day submission against a one-record state
leaves the state exactly as it was and surfaces an error. -/
theorem C8_validation_atomicity_witness :
    (addEarning
        { earnings := [{ id := "a", date := ⟨0, 1⟩, amount := 1, goal := 28000, notes := "" }],
          savings := 2 } ⟨0, 1⟩ (some 5) "" 0).state
      = { earnings := [{ id := "a", date := ⟨0, 1⟩, amount := 1, goal := 28000, notes := "" }],
          savings := 2 } ∧
    (addEarning
        { earnings := [{ id := "a", date := ⟨0, 1⟩, amount := 1, goal := 28000, notes := "" }],
          savings := 2 } ⟨0, 1⟩ (some 5) "" 0).err ≠ none :=
  C8_validation_atomicity
    { earnings := [{ id := "a", date := ⟨0, 1⟩, amount := 1, goal := 28000, notes := "" }],
      savings := 2 } ⟨0, 1⟩ (some 5) "" 0
    (Or.inr (Or.inr (by decide)))


/-- addEarning never touches the savings balance: it reads and writes only
the earnings list, in every branch. -/
theorem addEarning_savings_eq (st : AppState) (today : EDate)
    (amount? : Option ℚ) (notes : String) (nowMs : Nat) :
    (addEarning st today amount? notes nowMs).state.savings = st.savings := by
  cases amount? with
  | none => rfl
  | some a =>
    by_cases ha : a < 0
    · simp only [addEarning, if_pos ha]
    · cases h : hasEntryOn st.earnings today with
      | true => simp only [addEarning, if_neg ha, h, if_true]
      | false => simp only [addEarning, if_neg ha, h, Bool.false_eq_true, if_false]

/-- C2 counterexample: with days 1–3 of the current month recorded plus a
future-dated record on day 20, totalDebt = 0 while today (day 4) has no
record.  Recording 56000 (surplus S = 28000) is accepted, yet the savings
balance is unchanged — the source has no SavingsBalance mutation at all —
refuting the claim that savings increases by exactly S. -/
theorem C2_counterexample :
    (getMonthlyStats cexStateC2.earnings 0 ⟨0, 4⟩).totalDebt = 0 ∧
    (addEarning cexStateC2 ⟨0, 4⟩ (some 56000) "" 9).err = none ∧
    (addEarning cexStateC2 ⟨0, 4⟩ (some 56000) "" 9).state.savings = cexStateC2.savings ∧
    cexStateC2.savings ≠ cexStateC2.savings + (56000 - DAILY_GOAL) := by
  refine ⟨?_, ?_, addEarning_savings_eq cexStateC2 ⟨0, 4⟩ (some 56000) "" 9, ?_⟩
  · norm_num [getMonthlyStats, getMonthEarnings, cexStateC2, cexListC2, daysPassedOf,
      DAILY_GOAL]
  · rw [addEarning_accepted_surplus cexStateC2 ⟨0, 4⟩ 56000 "" 9 (by decide)
      (by norm_num [DAILY_GOAL])]
  · norm_num [cexStateC2, DAILY_GOAL]

/-- C2 (amended): when every day of the current month before today already
has a record (so no payable debt day exists), recording an entry of amount
DAILY_GOAL + S for today (S > 0) creates no synthetic records, and the
savings balance is left unchanged: the code never credits savings, so the
surplus is dropped rather than saved. -/
theorem C2_no_debt_surplus_amended (st : AppState) (today : EDate) (S : ℚ)
    (notes : String) (nowMs : Nat)
    (hdup : hasEntryOn st.earnings today = false)
    (hcov : ∀ j, 1 ≤ j → j < today.day →
      hasEntryOn st.earnings ⟨today.month, j⟩ = true)
    (hS : 0 < S) :
    syntheticRecords (postEntryList st today (DAILY_GOAL + S) notes nowMs) today S = [] ∧
    addEarning st today (some (DAILY_GOAL + S)) notes nowMs =
      { state :=
          { earnings := sortByDateDesc (postEntryList st today (DAILY_GOAL + S) notes nowMs),
            savings := st.savings },
        err := none } := by
  have hdd : debtDaysOf (postEntryList st today (DAILY_GOAL + S) notes nowMs) today = [] := by
    apply debtDaysOf_eq_nil
    intro d hm h1 h2
    by_cases hd : d.day = today.day
    · have hdt : d = today := EDate.eq_of_day_eq hm hd
      subst hdt
      rw [postEntryList, hasEntryOn_append]
      have horg : hasEntryOn [organicRecord d (DAILY_GOAL + S) notes nowMs] d = true := by
        simp [hasEntryOn, organicRecord]
      rw [horg, Bool.or_true]
    · have hlt : d.day < today.day := lt_of_le_of_ne h2 hd
      have hcv := hcov d.day h1 hlt
      have hde : d = ⟨today.month, d.day⟩ := EDate.eq_of_day_eq hm rfl
      rw [postEntryList, hasEntryOn_append, hde, hcv, Bool.true_or]
  have hsur : DAILY_GOAL < DAILY_GOAL + S := by linarith
  have hsurp : DAILY_GOAL + S - DAILY_GOAL = S := by ring
  have hsyn : syntheticRecords (postEntryList st today (DAILY_GOAL + S) notes nowMs) today S
      = [] := by
    rw [syntheticRecords, hdd, payLoop_nil]
  refine ⟨hsyn, ?_⟩
  rw [addEarning_accepted_surplus st today (DAILY_GOAL + S) notes nowMs hdup hsur, hsurp,
    hsyn, List.append_nil]

/-- Witness for C2 (amended): recording 28100 for day 1 of a fresh month
(no earlier day exists, so no debt day) yields no synthetic records and an
unchanged savings balance. -/
theorem C2_no_debt_surplus_witness :
    syntheticRecords
        (postEntryList { earnings := [], savings := 0 } ⟨0, 1⟩ (DAILY_GOAL + 100) "" 1)
        ⟨0, 1⟩ 100 = [] ∧
    addEarning { earnings := [], savings := 0 } ⟨0, 1⟩ (some (DAILY_GOAL + 100)) "" 1 =
      { state :=
          { earnings := sortByDateDesc
              (postEntryList { earnings := [], savings := 0 } ⟨0, 1⟩ (DAILY_GOAL + 100) "" 1),
            savings := 0 },
        err := none } :=
  C2_no_debt_surplus_amended { earnings := [], savings := 0 } ⟨0, 1⟩ 100 "" 1
    (by decide)
    (by
      intro j h1 h2
      have h3 : j < 1 := h2
      omega)
    (by norm_num)

/-- C1: debt-case surplus conservation.  With N ≥ 1 unpaid debt days
available for payment in the current month (the days up to today lacking a
record once today's entry is present — per the spec the entry's own day is
never a debt day) and surplus 0 < S ≤ N * G, recording the entry appends
exactly ⌈S / G⌉ synthetic records whose amounts are min (remaining, G),
sum to S, and are assigned to the earliest unpaid days in strictly
ascending date order. -/
theorem C1_debt_surplus_conservation (st : AppState) (today : EDate) (S : ℚ)
    (notes : String) (nowMs : Nat)
    (hdup : hasEntryOn st.earnings today = false)
    (hS : 0 < S)
    (hcap : S ≤
      ((debtDaysOf (postEntryList st today (DAILY_GOAL + S) notes nowMs) today).length : ℚ)
        * DAILY_GOAL) :
    addEarning st today (some (DAILY_GOAL + S)) notes nowMs =
      { state :=
          { earnings := sortByDateDesc
              (postEntryList st today (DAILY_GOAL + S) notes nowMs ++
                syntheticRecords (postEntryList st today (DAILY_GOAL + S) notes nowMs)
                  today S),
            savings := st.savings },
        err := none } ∧
    (syntheticRecords (postEntryList st today (DAILY_GOAL + S) notes nowMs) today S).length
        = (⌈S / DAILY_GOAL⌉).toNat ∧
    ((syntheticRecords (postEntryList st today (DAILY_GOAL + S) notes nowMs) today S).map
        (fun e => e.amount)).sum = S ∧
    ((syntheticRecords (postEntryList st today (DAILY_GOAL + S) notes nowMs) today S).map
        (fun e => e.date))
      = (debtDaysOf (postEntryList st today (DAILY_GOAL + S) notes nowMs) today).take
          (syntheticRecords (postEntryList st today (DAILY_GOAL + S) notes nowMs) today
            S).length ∧
    (∀ (i : Nat) (h : i < (syntheticRecords
        (postEntryList st today (DAILY_GOAL + S) notes nowMs) today S).length),
      ((syntheticRecords (postEntryList st today (DAILY_GOAL + S) notes nowMs) today
        S)[i]).amount = min (S - i * DAILY_GOAL) DAILY_GOAL) ∧
    List.Pairwise EDate.before
      ((syntheticRecords (postEntryList st today (DAILY_GOAL + S) notes nowMs) today S).map
        (fun e => e.date)) := by
  have hsur : DAILY_GOAL < DAILY_GOAL + S := by linarith
  have hsurp : DAILY_GOAL + S - DAILY_GOAL = S := by ring
  have h1 := addEarning_accepted_surplus st today (DAILY_GOAL + S) notes nowMs hdup hsur
  rw [hsurp] at h1
  refine ⟨h1, ?_, ?_, ?_, ?_, ?_⟩
  · simp only [syntheticRecords]
    exact payLoop_length DAILY_GOAL_pos _ _ S hS hcap 0
  · simp only [syntheticRecords]
    exact payLoop_sum DAILY_GOAL_pos _ _ S hS hcap 0
  · simp only [syntheticRecords]
    exact payLoop_map_date DAILY_GOAL _ _ S 0
  · intro i h
    have h2 : i < (payLoop DAILY_GOAL "Auto-paid from surplus" S 0
        (debtDaysOf (postEntryList st today (DAILY_GOAL + S) notes nowMs) today)).length := h
    simpa only [syntheticRecords] using
      payLoop_amount DAILY_GOAL_pos "Auto-paid from surplus" _ S 0 i h2
  · simp only [syntheticRecords]
    rw [payLoop_map_date]
    exact List.Pairwise.sublist (List.take_sublist _ _) (debtDaysOf_pairwise _ _)

/-- Witness for C1: recording 28100 for day 2 of a fresh month (day 1 is
the single unpaid debt day, surplus S = 100 ≤ 1 * G) creates one synthetic
record summing to 100. -/
theorem C1_debt_surplus_witness :
    (syntheticRecords
        (postEntryList { earnings := [], savings := 0 } ⟨0, 2⟩ (DAILY_GOAL + 100) "" 7)
        ⟨0, 2⟩ 100).length = (⌈(100 : ℚ) / DAILY_GOAL⌉).toNat ∧
    ((syntheticRecords
        (postEntryList { earnings := [], savings := 0 } ⟨0, 2⟩ (DAILY_GOAL + 100) "" 7)
        ⟨0, 2⟩ 100).map (fun e => e.amount)).sum = 100 := by
  have hcap : (100 : ℚ) ≤
      ((debtDaysOf (postEntryList { earnings := [], savings := 0 } ⟨0, 2⟩
        (DAILY_GOAL + 100) "" 7) ⟨0, 2⟩).length : ℚ) * DAILY_GOAL := by
    have hlen : (debtDaysOf (postEntryList { earnings := [], savings := 0 } ⟨0, 2⟩
        (DAILY_GOAL + 100) "" 7) ⟨0, 2⟩).length = 1 := by decide
    rw [hlen]
    norm_num [DAILY_GOAL]
  have happ := C1_debt_surplus_conservation { earnings := [], savings := 0 } ⟨0, 2⟩ 100 "" 7
    (by decide) (by norm_num) hcap
  exact ⟨happ.2.1, happ.2.2.1⟩

/-- C3: leftover surplus is dropped.  When the surplus S exceeds the debt
capacity N * G of the current month's unpaid days, exactly N synthetic
records are created, their amounts sum to N * G, and the resulting state is
exactly the prior records plus the organic entry plus those N records with
the savings balance unchanged — the remainder S - N * G is reflected
nowhere. -/
theorem C3_leftover_dropped (st : AppState) (today : EDate) (S : ℚ)
    (notes : String) (nowMs : Nat)
    (hdup : hasEntryOn st.earnings today = false)
    (hover :
      ((debtDaysOf (postEntryList st today (DAILY_GOAL + S) notes nowMs) today).length : ℚ)
        * DAILY_GOAL < S) :
    addEarning st today (some (DAILY_GOAL + S)) notes nowMs =
      { state :=
          { earnings := sortByDateDesc
              (postEntryList st today (DAILY_GOAL + S) notes nowMs ++
                syntheticRecords (postEntryList st today (DAILY_GOAL + S) notes nowMs)
                  today S),
            savings := st.savings },
        err := none } ∧
    (syntheticRecords (postEntryList st today (DAILY_GOAL + S) notes nowMs) today S).length
      = (debtDaysOf (postEntryList st today (DAILY_GOAL + S) notes nowMs) today).length ∧
    ((syntheticRecords (postEntryList st today (DAILY_GOAL + S) notes nowMs) today S).map
        (fun e => e.amount)).sum
      = ((debtDaysOf (postEntryList st today (DAILY_GOAL + S) notes nowMs) today).length : ℚ)
        * DAILY_GOAL := by
  have hS : 0 < S :=
    lt_of_le_of_lt (mul_nonneg (Nat.cast_nonneg _) DAILY_GOAL_pos.le) hover
  have hsur : DAILY_GOAL < DAILY_GOAL + S := by linarith
  have hsurp : DAILY_GOAL + S - DAILY_GOAL = S := by ring
  have h1 := addEarning_accepted_surplus st today (DAILY_GOAL + S) notes nowMs hdup hsur
  rw [hsurp] at h1
  obtain ⟨hl, hs⟩ := payLoop_overflow DAILY_GOAL_pos "Auto-paid from surplus"
    (debtDaysOf (postEntryList st today (DAILY_GOAL + S) notes nowMs) today) S hover 0
  exact ⟨h1, by simpa only [syntheticRecords] using hl,
    by simpa only [syntheticRecords] using hs⟩

/-- Witness for C3: recording 88000 for day 2 of a fresh month (one unpaid
debt day, capacity 28000 < surplus 60000) creates exactly one synthetic
record summing to 28000; the remaining 32000 appears nowhere. -/
theorem C3_leftover_dropped_witness :
    (syntheticRecords
        (postEntryList { earnings := [], savings := 0 } ⟨0, 2⟩ (DAILY_GOAL + 60000) "" 4)
        ⟨0, 2⟩ 60000).length =
      (debtDaysOf (postEntryList { earnings := [], savings := 0 } ⟨0, 2⟩
        (DAILY_GOAL + 60000) "" 4) ⟨0, 2⟩).length ∧
    ((syntheticRecords
        (postEntryList { earnings := [], savings := 0 } ⟨0, 2⟩ (DAILY_GOAL + 60000) "" 4)
        ⟨0, 2⟩ 60000).map (fun e => e.amount)).sum =
      ((debtDaysOf (postEntryList { earnings := [], savings := 0 } ⟨0, 2⟩
        (DAILY_GOAL + 60000) "" 4) ⟨0, 2⟩).length : ℚ) * DAILY_GOAL := by
  have hover : ((debtDaysOf (postEntryList { earnings := [], savings := 0 } ⟨0, 2⟩
      (DAILY_GOAL + 60000) "" 4) ⟨0, 2⟩).length : ℚ) * DAILY_GOAL < 60000 := by
    have hlen : (debtDaysOf (postEntryList { earnings := [], savings := 0 } ⟨0, 2⟩
        (DAILY_GOAL + 60000) "" 4) ⟨0, 2⟩).length = 1 := by decide
    rw [hlen]
    norm_num [DAILY_GOAL]
  have happ := C3_leftover_dropped { earnings := [], savings := 0 } ⟨0, 2⟩ 60000 "" 4
    (by decide) hover
  exact ⟨happ.2.1, happ.2.2⟩


/-- The final sort of addEarning is a permutation: it stores the same
records, newest first. -/
theorem sortByDateDesc_perm (l : List Earning) : (sortByDateDesc l).Perm l :=
  List.perm_insertionSort _ l

/-- C10: surplus routing is purely additive.  The distributor returns its
input with the synthetic records appended (no pre-existing record is
modified or dropped), and the triggering entry is stored with its full
entered amount: the final stored list is a permutation of the prior records
plus the full-amount organic entry plus the synthetic records, all of which
are members of it. -/
theorem C10_surplus_additive (st : AppState) (today : EDate) (a : ℚ)
    (notes : String) (nowMs : Nat)
    (hdup : hasEntryOn st.earnings today = false)
    (hsur : DAILY_GOAL < a) :
    applyDebtPayment (postEntryList st today a notes nowMs) today (a - DAILY_GOAL)
      = postEntryList st today a notes nowMs ++
        syntheticRecords (postEntryList st today a notes nowMs) today (a - DAILY_GOAL) ∧
    (organicRecord today a notes nowMs).amount = a ∧
    (addEarning st today (some a) notes nowMs).state.earnings.Perm
      (postEntryList st today a notes nowMs ++
        syntheticRecords (postEntryList st today a notes nowMs) today (a - DAILY_GOAL)) ∧
    organicRecord today a notes nowMs ∈
      (addEarning st today (some a) notes nowMs).state.earnings ∧
    ∀ e ∈ st.earnings, e ∈ (addEarning st today (some a) notes nowMs).state.earnings := by
  have h1 := addEarning_accepted_surplus st today a notes nowMs hdup hsur
  have hperm : (addEarning st today (some a) notes nowMs).state.earnings.Perm
      (postEntryList st today a notes nowMs ++
        syntheticRecords (postEntryList st today a notes nowMs) today (a - DAILY_GOAL)) := by
    rw [h1]
    exact sortByDateDesc_perm _
  refine ⟨rfl, rfl, hperm, ?_, ?_⟩
  · refine hperm.mem_iff.mpr (List.mem_append.mpr (Or.inl ?_))
    simp [postEntryList]
  · intro e he
    refine hperm.mem_iff.mpr (List.mem_append.mpr (Or.inl ?_))
    simp [postEntryList, he]

/-- Witness for C10: recording 30000 at the empty state keeps the organic
entry at its full amount in the stored list. -/
theorem C10_surplus_additive_witness :
    (organicRecord ⟨0, 1⟩ 30000 "" 2).amount = 30000 ∧
    organicRecord ⟨0, 1⟩ 30000 "" 2 ∈
      (addEarning { earnings := [], savings := 0 } ⟨0, 1⟩ (some 30000) "" 2).state.earnings := by
  have happ := C10_surplus_additive { earnings := [], savings := 0 } ⟨0, 1⟩ 30000 "" 2
    (by decide) (by norm_num [DAILY_GOAL])
  exact ⟨happ.2.1, happ.2.2.2.1⟩

/-- The list after appending the organic entry still has pairwise-distinct
dates: the duplicate check guarantees no prior record is dated today. -/
theorem pairwise_dates_postEntry (st : AppState) (today : EDate) (a : ℚ)
    (notes : String) (nowMs : Nat)
    (hp : List.Pairwise (fun x y => x.date ≠ y.date) st.earnings)
    (hdup : hasEntryOn st.earnings today = false) :
    List.Pairwise (fun x y => x.date ≠ y.date)
      (postEntryList st today a notes nowMs) := by
  rw [postEntryList, List.pairwise_append]
  refine ⟨hp, by simp, ?_⟩
  intro x hx y hy
  have hyo : y = organicRecord today a notes nowMs := List.mem_singleton.mp hy
  have hxd := (hasEntryOn_eq_false_iff _ _).mp hdup x hx
  rw [hyo]
  simpa [organicRecord] using hxd

/-- The list after surplus distribution still has pairwise-distinct dates:
synthetic records are placed on distinct days that carry no record. -/
theorem pairwise_dates_full (st : AppState) (today : EDate) (a s : ℚ)
    (notes : String) (nowMs : Nat)
    (hp : List.Pairwise (fun x y => x.date ≠ y.date) st.earnings)
    (hdup : hasEntryOn st.earnings today = false) :
    List.Pairwise (fun x y => x.date ≠ y.date)
      (postEntryList st today a notes nowMs ++
        syntheticRecords (postEntryList st today a notes nowMs) today s) := by
  rw [List.pairwise_append]
  refine ⟨pairwise_dates_postEntry st today a notes nowMs hp hdup, ?_, ?_⟩
  · have hmap : List.Pairwise EDate.before
        ((syntheticRecords (postEntryList st today a notes nowMs) today s).map
          (fun e => e.date)) := by
      simp only [syntheticRecords]
      rw [payLoop_map_date]
      exact List.Pairwise.sublist (List.take_sublist _ _) (debtDaysOf_pairwise _ _)
    exact (List.pairwise_map.mp hmap).imp (fun h => EDate.before_ne h)
  · intro x hx y hy
    have hyd : y.date ∈ debtDaysOf (postEntryList st today a notes nowMs) today :=
      payLoop_mem_date (by simpa only [syntheticRecords] using hy)
    have hno := (mem_debtDaysOf.mp hyd).2
    exact (hasEntryOn_eq_false_iff _ _).mp hno x hx

/-- C9: per-day uniqueness invariant.  Both addEarning (including its
surplus distribution) and deleteEarning preserve "at most one record per
normalized calendar day"; every synthetic record is created on a day that
has no record (in particular none predating the entry) and is dated
strictly before the triggering entry's day. -/
theorem C9_per_day_uniqueness (st : AppState) (today : EDate)
    (amount? : Option ℚ) (notes : String) (nowMs : Nat) (idToDelete : String)
    (hp : List.Pairwise (fun x y => x.date ≠ y.date) st.earnings) :
    List.Pairwise (fun x y => x.date ≠ y.date)
      (addEarning st today amount? notes nowMs).state.earnings ∧
    (∀ (a s : ℚ), ∀ e ∈ syntheticRecords (postEntryList st today a notes nowMs) today s,
      hasEntryOn (postEntryList st today a notes nowMs) e.date = false ∧
        e.date.before today) ∧
    List.Pairwise (fun x y => x.date ≠ y.date) (deleteEarning st idToDelete).earnings := by
  have hsymm : ∀ {x y : Earning}, x.date ≠ y.date → y.date ≠ x.date :=
    fun h => Ne.symm h
  refine ⟨?_, ?_, ?_⟩
  · cases amount? with
    | none => exact hp
    | some a =>
      by_cases ha : a < 0
      · simpa only [addEarning, if_pos ha] using hp
      · cases hdup : hasEntryOn st.earnings today with
        | true => simpa only [addEarning, if_neg ha, hdup, if_true] using hp
        | false =>
          by_cases hsur : DAILY_GOAL < a
          · rw [addEarning_accepted_surplus st today a notes nowMs hdup hsur]
            exact ((sortByDateDesc_perm _).pairwise_iff hsymm).mpr
              (pairwise_dates_full st today a (a - DAILY_GOAL) notes nowMs hp hdup)
          · rw [addEarning_accepted_nosurplus st today a notes nowMs hdup ha hsur]
            exact ((sortByDateDesc_perm _).pairwise_iff hsymm).mpr
              (pairwise_dates_postEntry st today a notes nowMs hp hdup)
  · intro a s e he
    have hed : e.date ∈ debtDaysOf (postEntryList st today a notes nowMs) today :=
      payLoop_mem_date (by simpa only [syntheticRecords] using he)
    rcases mem_debtDaysOf.mp hed with ⟨⟨hm, h1, h2⟩, hno⟩
    refine ⟨hno, ?_⟩
    have htoday : hasEntryOn (postEntryList st today a notes nowMs) today = true := by
      rw [postEntryList, hasEntryOn_append]
      have horg : hasEntryOn [organicRecord today a notes nowMs] today = true := by
        simp [hasEntryOn, organicRecord]
      rw [horg, Bool.or_true]
    have hne : e.date ≠ today := by
      intro hcontra
      rw [hcontra, htoday] at hno
      cases hno
    have hdlt : e.date.day < today.day :=
      lt_of_le_of_ne h2 (fun hh => hne (EDate.eq_of_day_eq hm hh))
    exact Or.inr ⟨hm, hdlt⟩
  · exact List.Pairwise.sublist (List.filter_sublist _) hp

/-- Witness for C9: a one-record state with a distinct-dated record stays
duplicate-free through addEarning and deleteEarning. -/
theorem C9_per_day_uniqueness_witness :
    List.Pairwise (fun x y => x.date ≠ y.date)
      (addEarning
        { earnings := [{ id := "a", date := ⟨0, 1⟩, amount := 5, goal := 28000, notes := "" }],
          savings := 0 } ⟨0, 3⟩ (some 30000) "" 6).state.earnings ∧
    List.Pairwise (fun x y => x.date ≠ y.date)
      (deleteEarning
        { earnings := [{ id := "a", date := ⟨0, 1⟩, amount := 5, goal := 28000, notes := "" }],
          savings := 0 } "a").earnings := by
  have happ := C9_per_day_uniqueness
    { earnings := [{ id := "a", date := ⟨0, 1⟩, amount := 5, goal := 28000, notes := "" }],
      savings := 0 } ⟨0, 3⟩ (some 30000) "" 6 "a" (by decide)
  exact ⟨happ.1, happ.2.2⟩

/-! Lemmas for the goal-streak computation (modelled from the spec). -/

theorem prevDay_before (d : EDate) : (prevDay d).before d := by
  unfold prevDay
  by_cases h : 1 < d.day
  · rw [if_pos h]
    refine Or.inr ⟨rfl, ?_⟩
    show d.day - 1 < d.day
    omega
  · rw [if_neg h]
    refine Or.inl ?_
    show d.month - 1 < d.month
    omega

theorem iterate_prevDay_before (d : EDate) :
    ∀ n, 0 < n → (prevDay^[n] d).before d
  | 0, h => absurd h (lt_irrefl 0)
  | n + 1, _ => by
    rw [Function.iterate_succ_apply]
    by_cases hn : 0 < n
    · exact EDate.before_trans (iterate_prevDay_before (prevDay d) n hn) (prevDay_before d)
    · have hz : n = 0 := by omega
      subst hz
      simpa using prevDay_before d

theorem iterate_prevDay_lt {d : EDate} {i j : Nat} (h : i < j) :
    (prevDay^[j] d).before (prevDay^[i] d) := by
  have hj : j = (j - i) + i := by omega
  rw [hj, Function.iterate_add_apply]
  exact iterate_prevDay_before (prevDay^[i] d) (j - i) (by omega)

/-- A run of k Met days walking back from today occupies k distinct days,
each carrying a record, so k never exceeds the record count. -/
theorem streak_le_length (es : List Earning) (today : EDate) (k : Nat)
    (hmet : ∀ i, i < k → isMetOn es (prevDay^[i] today) = true) :
    k ≤ es.length := by
  classical
  have hnd : ((List.range k).map (fun i => prevDay^[i] today)).Nodup := by
    refine List.pairwise_map.mpr ?_
    exact (List.pairwise_lt_range k).imp
      (fun hij => (EDate.before_ne (iterate_prevDay_lt hij)).symm)
  have hsub : ∀ x ∈ (List.range k).map (fun i => prevDay^[i] today),
      x ∈ es.map (fun e => e.date) := by
    intro x hx
    rcases List.mem_map.mp hx with ⟨i, hi, rfl⟩
    have hm := hmet i (List.mem_range.mp hi)
    rw [isMetOn, List.any_eq_true] at hm
    rcases hm with ⟨e, he, hpe⟩
    rw [Bool.and_eq_true, beq_iff_eq] at hpe
    exact List.mem_map.mpr ⟨e, he, hpe.1⟩
  calc k = ((List.range k).map (fun i => prevDay^[i] today)).length := by simp
    _ = ((List.range k).map (fun i => prevDay^[i] today)).toFinset.card :=
        (List.toFinset_card_of_nodup hnd).symm
    _ ≤ (es.map (fun e => e.date)).toFinset.card := by
        refine Finset.card_le_card ?_
        intro x hx
        exact List.mem_toFinset.mpr (hsub x (List.mem_toFinset.mp hx))
    _ ≤ (es.map (fun e => e.date)).length := List.toFinset_card_le _
    _ = es.length := List.length_map _ _

/-- The fuelled walk returns exactly k when the first k days back from `d`
are Met and the next one is not, as long as the fuel covers k. -/
theorem streakAux_spec (es : List Earning) :
    ∀ (k : Nat) (d : EDate) (fuel : Nat), k ≤ fuel →
      (∀ i, i < k → isMetOn es (prevDay^[i] d) = true) →
      isMetOn es (prevDay^[k] d) = false →
      streakAux es fuel d = k
  | 0, d, fuel, _, _, hstop => by
    have h0 : isMetOn es d = false := by simpa using hstop
    cases fuel with
    | zero => rfl
    | succ f => simp [streakAux, h0]
  | k + 1, d, fuel, hf, hmet, hstop => by
    cases fuel with
    | zero => omega
    | succ f =>
      have h0 : isMetOn es d = true := by simpa using hmet 0 (Nat.succ_pos k)
      have hrec : streakAux es f (prevDay d) = k := by
        refine streakAux_spec es k (prevDay d) f (by omega) ?_ ?_
        · intro i hi
          have hh := hmet (i + 1) (by omega)
          rwa [Function.iterate_succ_apply] at hh
        · have hh := hstop
          rwa [Function.iterate_succ_apply] at hh
      simp [streakAux, h0, hrec]

/-- C6: streak boundary (modelled from the spec: the streak computation is
not among the provided sources; only the SavingsJar display of its result
is).  computeGoalStreak returns 0 when today is not Met, and returns k when
today and the preceding k - 1 days are all Met while the day before that
run has no record or falls short of its goal. -/
theorem C6_streak_boundary (es : List Earning) (today : EDate) (k : Nat)
    (hmet : ∀ i, i < k → isMetOn es (prevDay^[i] today) = true)
    (hstop : isMetOn es (prevDay^[k] today) = false) :
    computeGoalStreak es today = k :=
  streakAux_spec es k today es.length (streak_le_length es today k hmet) hmet hstop

/-- Witness for C6: one Met record on today (day 2) with no record on day 1
yields a streak of exactly 1. -/
theorem C6_streak_boundary_witness :
    computeGoalStreak
      [{ id := "a", date := ⟨0, 2⟩, amount := 28000, goal := 28000, notes := "" }]
      ⟨0, 2⟩ = 1 :=
  C6_streak_boundary
    [{ id := "a", date := ⟨0, 2⟩, amount := 28000, goal := 28000, notes := "" }]
    ⟨0, 2⟩ 1 (by decide) (by decide)

end TaskApp
